import Mathlib

/-!
Verification of the conversion-orchestration engine of
`convert_any_to_mp4_gui.py` (MKV remux / WEBM-OGV transcode GUI).

The Python source is shallowly embedded below.  Filesystem state is a map
from path to an optional file signature (`stat` result: size and mtime in
nanoseconds); external processes (ffmpeg / ffprobe) are an environment
giving, for each invocation, the resulting filesystem and exit code.
Every definition mirrors the Python function of the same name.
-/

/-- Result of `os.stat`: the fields kept by `file_sig` in the source
(`size`, `mtime_ns`). -/
structure Sig where
  size : Nat
  mtime_ns : Int
deriving DecidableEq

/-- Abstract filesystem: each path is either absent (`none`) or present with
a signature.  `os.stat` reads the signature; `os.path.getsize` reads its
`size` field. -/
structure FS where
  files : String → Option Sig

/-- `os.path.exists`. -/
def pathExists (fs : FS) (p : String) : Bool :=
  (fs.files p).isSome

/-- `os.path.getsize` (only ever used on paths checked to exist). -/
def getsize (fs : FS) (p : String) : Nat :=
  match fs.files p with
  | some s => s.size
  | none => 0

/-- Effect of `os.remove` / `send2trash` on the filesystem. -/
def fsRemove (fs : FS) (p : String) : FS :=
  ⟨fun q => if q = p then none else fs.files q⟩

/-- `file_sig(path)` from the source: `os.stat` giving `{size, mtime_ns}`;
`none` models the `FileNotFoundError` the callers catch. -/
def file_sig (fs : FS) (path : String) : Option Sig :=
  fs.files path

/-- Index of the last occurrence of `c` in `cs` (Python `str.rfind`),
with the running index threaded through. -/
def lastIdxOfAux (c : Char) : List Char → Nat → Option Nat
  | [], _ => none
  | x :: xs, i =>
    match lastIdxOfAux c xs (i + 1) with
    | some j => some j
    | none => if x == c then some i else none

/-- Index of the last occurrence of `c` in `cs`, if any. -/
def lastIdxOf (c : Char) (cs : List Char) : Option Nat :=
  lastIdxOfAux c cs 0

/-- `os.path.splitext` (posix rules): split at the last dot of the final
path component, unless every character between the last separator and that
dot is itself a dot. -/
def splitext (s : String) : String × String :=
  let cs := s.data
  let sepIdx : Int := match lastIdxOf '/' cs with | some i => (i : Int) | none => -1
  let dotIdx : Int := match lastIdxOf '.' cs with | some i => (i : Int) | none => -1
  if sepIdx < dotIdx then
    let lo := (sepIdx + 1).toNat
    let hi := dotIdx.toNat
    if (List.range (hi - lo)).any (fun k => !(cs.getD (lo + k) '.' == '.')) then
      (⟨cs.take hi⟩, ⟨cs.drop hi⟩)
    else (s, "")
  else (s, "")

/-- `dest_path(src)` from the source: replace the extension with `.mp4`. -/
def dest_path (src : String) : String :=
  (splitext src).1 ++ ".mp4"

/-- Python `str.lower()` (ASCII case folding, character by character). -/
def strLower (s : String) : String :=
  ⟨s.data.map Char.toLower⟩

/-- `os.path.splitext(src)[1].lower()` as used throughout the source. -/
def extOf (src : String) : String :=
  strLower (splitext src).2

/-- One progress record, the value stored at `db[src]` by `mark_progress`. -/
structure Rec where
  dst : String
  success : Bool
  sig : Option Sig
  updated_at : String
deriving DecidableEq

/-- The progress store: the JSON object in `progress.json`, a mapping from
source path to record (association list in insertion order, unique keys as
for a Python dict). -/
abbrev DB := List (String × Rec)

/-- `db[src] = rec` on a Python dict: overwrite in place, else append. -/
def dbInsert : DB → String → Rec → DB
  | [], k, v => [(k, v)]
  | (k', v') :: rest, k, v =>
    if k' = k then (k, v) :: rest else (k', v') :: dbInsert rest k v

/-- `already_done(db, src, dst)` from the source: a record counts as done
only when present, the destination exists, the source still exists, the
success flag is set and the stored signature equals the current one. -/
def already_done (fs : FS) (db : DB) (src dst : String) : Bool :=
  match List.lookup src db with
  | none => false
  | some r =>
    if !pathExists fs dst then false
    else
      match file_sig fs src with
      | none => false
      | some sig => r.success && decide (r.sig = some sig)

/-- `mark_progress(db, src, dst, success)` from the source: store the
current signature of `src` (absent when the file is gone) together with
the outcome. -/
def mark_progress (fs : FS) (db : DB) (src dst : String) (success : Bool)
    (now : String) : DB :=
  let sig := if pathExists fs src then file_sig fs src else none
  dbInsert db src ⟨dst, success, sig, now⟩

/-- One probed audio stream (the `codec_name` field of an ffprobe entry;
`none` models a missing key). -/
structure AStream where
  codec_name : Option String
deriving DecidableEq

/-- The fixed MP4-compatible audio codec set `AUDIO_OK_FOR_MP4`. -/
def AUDIO_OK_FOR_MP4 : List String := ["aac", "mp3"]

/-- Pure core of `should_transcode_audio_for_mkv`, taking the probed
stream list: empty list gives `false`; otherwise `true` iff some stream's
lowercased codec name is outside `AUDIO_OK_FOR_MP4`. -/
def should_transcode_audio_core (streams : List AStream) : Bool :=
  if streams.isEmpty then false
  else streams.any (fun s => !(AUDIO_OK_FOR_MP4.contains (strLower (s.codec_name.getD ""))))

/-- The fixed AAC bitrate `AUDIO_BITRATE`. -/
def AUDIO_BITRATE : String := "192k"

/-- `build_ffmpeg_cmd_remux_mkv(src, dst, transcode_audio, keep_text_subs)`
from the source, with the resolved ffmpeg binary passed explicitly. -/
def build_ffmpeg_cmd_remux_mkv (FFMPEG_BIN src dst : String)
    (transcode_audio keep_text_subs : Bool) : List String :=
  [FFMPEG_BIN, "-loglevel", "warning", "-hide_banner", "-nostats", "-y",
   "-fflags", "+genpts+discardcorrupt", "-err_detect", "ignore_err",
   "-i", src, "-map", "0:v?", "-map", "0:a?", "-c:v", "copy"]
  ++ (if transcode_audio then
        ["-c:a", "aac", "-b:a", AUDIO_BITRATE, "-af", "aresample=async=1:first_pts=0"]
      else ["-c:a", "copy"])
  ++ (if keep_text_subs then ["-map", "0:s?", "-c:s", "mov_text"] else [])
  ++ ["-avoid_negative_ts", "make_zero", "-movflags", "+faststart", dst]

/-- Python `s or d` for strings: `d` when `s` is empty. -/
def pyOrStr (s d : String) : String :=
  if s == "" then d else s

/-- `build_ffmpeg_cmd_transcode(src, dst, crf, preset, tune, lossless)`
from the source.  `tune` is `none` when the caller passed Python `None`. -/
def build_ffmpeg_cmd_transcode (FFMPEG_BIN src dst crf preset : String)
    (tune : Option String) (lossless : Bool) : List String :=
  [FFMPEG_BIN, "-loglevel", "warning", "-hide_banner", "-nostats", "-y",
   "-fflags", "+genpts+discardcorrupt", "-err_detect", "ignore_err",
   "-i", src, "-map", "0:v:0?", "-map", "0:a:0?", "-c:v", "libx264"]
  ++ (if lossless then ["-preset", pyOrStr preset "veryslow", "-crf", "0", "-pix_fmt", "yuv420p"]
      else ["-preset", preset, "-crf", crf, "-pix_fmt", "yuv420p"])
  ++ (if (tune.getD "") == "" then [] else ["-tune", tune.getD ""])
  ++ ["-c:a", "aac", "-b:a", AUDIO_BITRATE]
  ++ ["-avoid_negative_ts", "make_zero", "-movflags", "+faststart", dst]

/-- One external-process invocation made by the worker: either an
`ffprobe` audio probe of a source file or an ffmpeg run with a full
argument list. -/
inductive Invocation
  | probe (src : String)
  | ffmpeg (cmd : List String)
deriving DecidableEq

/-- Environment supplying the behaviour of external processes: the audio
streams an `ffprobe`/`ffmpeg -i` probe of a path reports, and the
filesystem and exit code an ffmpeg run produces. -/
structure Env where
  probe : String → List AStream
  exec : List String → FS → FS × Int

/-- Success test applied after every conversion attempt in the source:
exit code 0, destination exists, destination size positive. -/
def convSuccess (fs : FS) (dst : String) (rc : Int) : Bool :=
  decide (rc = 0) && pathExists fs dst && decide (0 < getsize fs dst)

/-- Outcome of processing one file: final ok flag, the filesystem after all
external runs, and the external invocations performed, in order. -/
structure ProcResult where
  ok : Bool
  fs : FS
  invs : List Invocation

/-- `ConverterWorker.process_mkv`: probe the audio streams, run the primary
remux command, and on failure of the success test run exactly one fallback
remux (audio transcode forced, subtitles off) judged by the same test. -/
def process_mkv (FFMPEG_BIN : String) (env : Env) (fs : FS) (src : String) : ProcResult :=
  let transcode_audio := should_transcode_audio_core (env.probe src)
  let dst := dest_path src
  let cmd := build_ffmpeg_cmd_remux_mkv FFMPEG_BIN src dst transcode_audio false
  let r1 := env.exec cmd fs
  if convSuccess r1.1 dst r1.2 then
    ⟨true, r1.1, [.probe src, .ffmpeg cmd]⟩
  else
    let cmd2 := build_ffmpeg_cmd_remux_mkv FFMPEG_BIN src dst true false
    let r2 := env.exec cmd2 r1.1
    ⟨convSuccess r2.1 dst r2.2, r2.1, [.probe src, .ffmpeg cmd, .ffmpeg cmd2]⟩

/-- Delete-after policy as built by the GUI: Python `None`, the string
`"all"`, or a non-empty set of extensions. -/
inductive DelPolicy
  | nonePolicy
  | all
  | exts (s : List String)
deriving DecidableEq

/-- Python truthiness of the policy value (`if self.opts["delete_after_policy"]:`). -/
def DelPolicy.truthy : DelPolicy → Bool
  | .nonePolicy => false
  | .all => true
  | .exts s => !s.isEmpty

/-- The `allowed` test of `maybe_delete_source`:
`policy == "all" or (isinstance(policy, set) and ext in policy)`. -/
def DelPolicy.covers : DelPolicy → String → Bool
  | .nonePolicy, _ => false
  | .all, _ => true
  | .exts s, ext => s.contains ext

/-- The per-run options dictionary built by `App.start`. -/
structure Opts where
  crf : String
  preset : String
  tune : String
  lossless : Bool
  force : Bool
  dry_run : Bool
  permanent : Bool
  delete_after_policy : DelPolicy

/-- `ConverterWorker.process_transcode`: build the transcode command from
the options (tune passed as `None` when empty) and run it once, no
fallback. -/
def process_transcode (FFMPEG_BIN : String) (env : Env) (fs : FS) (opts : Opts)
    (src : String) : ProcResult :=
  let dst := dest_path src
  let cmd := build_ffmpeg_cmd_transcode FFMPEG_BIN src dst opts.crf opts.preset
    (if opts.tune == "" then none else some opts.tune) opts.lossless
  let r1 := env.exec cmd fs
  ⟨convSuccess r1.1 dst r1.2, r1.1, [.ffmpeg cmd]⟩

/-- Result of the optional post-conversion deletion: the `delete_file`
invocations performed and the filesystem afterwards. -/
structure DelResult where
  deletions : List String
  fs : FS

/-- `ConverterWorker.maybe_delete_source`: delete the source right after a
successful conversion when the delete-after policy covers its extension,
unless dry-run is set. -/
def maybe_delete_source (opts : Opts) (fs : FS) (src : String) : DelResult :=
  let ext := extOf src
  let allowed := opts.delete_after_policy.covers ext
  if !allowed then ⟨[], fs⟩
  else if opts.dry_run then ⟨[], fs⟩
  else ⟨[src], fsRemove fs src⟩

/-- Classification of one task by the worker loop. -/
inductive Status
  | skipped
  | converted
  | failed
deriving DecidableEq

/-- Everything observable about the worker loop's handling of one task:
classification, updated store and filesystem, external invocations,
`save_json` count, `mark_progress` calls, `delete_file` calls and
`append_failed` calls. -/
structure StepResult where
  status : Status
  db : DB
  fs : FS
  invs : List Invocation
  saves : Nat
  marks : List (String × Bool)
  deletions : List String
  failedAppends : List String

/-- The extension dispatch of the worker loop: `.mkv` goes to
`process_mkv`, everything else (`.webm`, `.ogv`) to `process_transcode`. -/
def worker_process (FFMPEG_BIN : String) (env : Env) (opts : Opts) (fs : FS)
    (src : String) : ProcResult :=
  if extOf src == ".mkv" then process_mkv FFMPEG_BIN env fs src
  else process_transcode FFMPEG_BIN env fs opts src

/-- The body of the `for src in self.tasks` loop in `ConverterWorker.run`
for one task (no crash): skip when `already_done` and not forced, else
process by extension, record and persist the outcome, then optionally
delete the source. -/
def worker_step (FFMPEG_BIN : String) (env : Env) (opts : Opts) (now : String)
    (fs : FS) (db : DB) (src : String) : StepResult :=
  let dst := dest_path src
  if !opts.force && already_done fs db src dst then
    { status := .skipped, db := db, fs := fs, invs := [], saves := 0,
      marks := [], deletions := [], failedAppends := [] }
  else
    let pr := worker_process FFMPEG_BIN env opts fs src
    let db1 := mark_progress pr.fs db src dst pr.ok now
    if pr.ok then
      if opts.delete_after_policy.truthy then
        let d := maybe_delete_source opts pr.fs src
        { status := .converted, db := db1, fs := d.fs, invs := pr.invs, saves := 1,
          marks := [(src, true)], deletions := d.deletions, failedAppends := [] }
      else
        { status := .converted, db := db1, fs := pr.fs, invs := pr.invs, saves := 1,
          marks := [(src, true)], deletions := [], failedAppends := [] }
    else
      { status := .failed, db := db1, fs := pr.fs, invs := pr.invs, saves := 1,
        marks := [(src, false)], deletions := [], failedAppends := [src] }

/-- Platform path facts used by `cleanup_from_progress.is_within`:
`os.path.normcase(os.path.abspath(.))` as one normalization function,
`os.path.isdir`, and `os.sep`. -/
structure PathEnv where
  norm : String → String
  isdir : String → Bool
  sep : String

/-- `is_within(path, roots)` from `cleanup_from_progress`: empty root set
means everything is in scope; otherwise the normalized path must equal a
normalized root or lie under a root directory. -/
def is_within (penv : PathEnv) (path : String) (roots : List String) : Bool :=
  if roots.isEmpty then true
  else
    let p_norm := penv.norm path
    roots.any (fun r =>
      let r_norm := penv.norm r
      p_norm == r_norm || (penv.isdir r_norm && p_norm.startsWith (r_norm ++ penv.sep)))

/-- Cleanup policy: the string `"all"` or an explicit extension set. -/
inductive CPolicy
  | all
  | exts (s : List String)
deriving DecidableEq

/-- The extension filter of the cleanup loop:
`policy != "all" and ext not in policy`. -/
def CPolicy.skipsExt : CPolicy → String → Bool
  | .all, _ => false
  | .exts s, ext => !s.contains ext

/-- How the cleanup loop classifies one progress record, mirroring its log
lines and counters. -/
inductive CAction
  | skipExt
  | skipScope
  | notSuccess
  | missingDst
  | missingSrc
  | changed
  | wouldDelete
  | doDelete
deriving DecidableEq

/-- `rec.get("dst") or dest_path(src)` in the cleanup loop. -/
def recDst (r : Rec) (src : String) : String :=
  if r.dst == "" then dest_path src else r.dst

/-- The per-record decision chain of `cleanup_from_progress`, in source
order: extension policy, scope, success flag, destination existence,
source existence, stored-vs-current signature, then dry-run intent or
actual deletion. -/
def cleanup_action (penv : PathEnv) (fs : FS) (policy : CPolicy)
    (scope_paths : List String) (dry_run : Bool) (src : String) (r : Rec) : CAction :=
  let ext := extOf src
  if policy.skipsExt ext then .skipExt
  else if !scope_paths.isEmpty && !is_within penv src scope_paths then .skipScope
  else if !r.success then .notSuccess
  else
    let dst := recDst r src
    if !pathExists fs dst then .missingDst
    else if !pathExists fs src then .missingSrc
    else
      match file_sig fs src with
      | none => .missingSrc
      | some current_sig =>
        match r.sig with
        | none => .changed
        | some saved_sig =>
          if !decide (saved_sig = current_sig) then .changed
          else if dry_run then .wouldDelete
          else .doDelete

/-- Observable outcome of a cleanup pass: final filesystem and the ordered
classification of every record. -/
structure CleanupOut where
  fs : FS
  events : List (String × CAction)

/-- The `for src, rec in db.items()` loop of `cleanup_from_progress`,
threading the filesystem through the deletions it performs. -/
def cleanup_loop (penv : PathEnv) (policy : CPolicy) (scope_paths : List String)
    (dry_run : Bool) : FS → DB → CleanupOut
  | fs, [] => ⟨fs, []⟩
  | fs, (src, r) :: rest =>
    let a := cleanup_action penv fs policy scope_paths dry_run src r
    let fs' := if a = CAction.doDelete then fsRemove fs src else fs
    let out := cleanup_loop penv policy scope_paths dry_run fs' rest
    ⟨out.fs, (src, a) :: out.events⟩

/-- `cleanup_from_progress(ui_queue, policy, scope_paths, permanent, dry_run)`
restricted to its decision logic (the `permanent` flag only selects the
deletion method and is dropped here). -/
def cleanup_from_progress (penv : PathEnv) (fs : FS) (db : DB) (policy : CPolicy)
    (scope_paths : List String) (dry_run : Bool) : CleanupOut :=
  cleanup_loop penv policy scope_paths dry_run fs db

/-- The sources actually handed to `delete_file` by a cleanup pass. -/
def deletedOf (out : CleanupOut) : List String :=
  out.events.filterMap (fun e => if e.2 = CAction.doDelete then some e.1 else none)

/-- All checks the cleanup loop requires before deleting `src` with record
`r`, stated against a fixed filesystem: policy covers the extension, the
scope admits the path, success is recorded, destination and source exist,
the stored signature equals the current one, and dry-run is off. -/
def delete_gate (penv : PathEnv) (fs : FS) (policy : CPolicy)
    (scope_paths : List String) (dry_run : Bool) (src : String) (r : Rec) : Prop :=
  policy.skipsExt (extOf src) = false ∧
  (scope_paths ≠ [] → is_within penv src scope_paths = true) ∧
  r.success = true ∧
  pathExists fs (recDst r src) = true ∧
  pathExists fs src = true ∧
  (∃ s, file_sig fs src = some s ∧ r.sig = some s) ∧
  dry_run = false

/-- Raw on-disk state for the progress-store file: path to full text
content. -/
def Store := String → Option String

/-- The two filesystem effects `save_json` performs, as primitive
operations: a whole-content write and `os.replace`. -/
inductive FOp
  | write (path content : String)
  | rename (src dst : String)

/-- Effect of one primitive operation on the disk.  `rename` is the atomic
`os.replace`: the destination takes the source's content and the source
disappears. -/
def applyOp (st : Store) : FOp → Store
  | .write p c => fun q => if q = p then some c else st q
  | .rename s d => fun q => if q = d then st s else if q = s then none else st q

/-- Effect of a sequence of operations. -/
def applyOps (st : Store) (ops : List FOp) : Store :=
  ops.foldl applyOp st

/-- `save_json(path, data)` from the source as its operation sequence:
serialize `data`, write it whole to the sibling `path + ".tmp"`, then
atomically replace `path`.  The serializer (`json.dump`) is abstract. -/
def save_json_ops (ser : DB → String) (path : String) (data : DB) : List FOp :=
  [.write (path ++ ".tmp") (ser data), .rename (path ++ ".tmp") path]

/-- The primary remux command `process_mkv` builds: audio handling decided
by the probe, subtitles off. -/
def mkv_primary_cmd (FFMPEG_BIN : String) (env : Env) (src : String) : List String :=
  build_ffmpeg_cmd_remux_mkv FFMPEG_BIN src (dest_path src)
    (should_transcode_audio_core (env.probe src)) false

/-- The fallback remux command `process_mkv` builds: audio transcode
forced, subtitles off. -/
def mkv_fallback_cmd (FFMPEG_BIN src : String) : List String :=
  build_ffmpeg_cmd_remux_mkv FFMPEG_BIN src (dest_path src) true false

/-- Fixture: a source file and its already-converted destination. -/
def fsA : FS :=
  ⟨fun p => if p = "a.mkv" then some ⟨10, 1⟩ else if p = "a.mp4" then some ⟨5, 0⟩ else none⟩

/-- Fixture: a successful progress record matching `fsA`. -/
def recA : Rec := ⟨"a.mp4", true, some ⟨10, 1⟩, "t0"⟩

/-- Fixture: a one-record progress store over `fsA`. -/
def dbA : DB := [("a.mkv", recA)]

/-- Fixture: a successful record whose stored signature is absent. -/
def recN : Rec := ⟨"a.mp4", true, none, "t0"⟩

/-- Fixture: a store holding only `recN`. -/
def dbN : DB := [("a.mkv", recN)]

/-- Fixture: default options, no delete-after policy. -/
def optsNoDel : Opts := ⟨"18", "slow", "", false, false, false, false, DelPolicy.nonePolicy⟩

/-- Fixture: default options with delete-after enabled for `.mkv`. -/
def optsDelMkv : Opts := ⟨"18", "slow", "", false, false, false, false, DelPolicy.exts [".mkv"]⟩

/-- Fixture: an environment whose external runs always fail with exit
code 1 and leave the filesystem unchanged. -/
def envFail : Env := ⟨fun _ => [], fun _ fs => (fs, 1)⟩

/-- Fixture: an environment whose external runs succeed, leaving a
filesystem holding only the produced `a.mp4` — in particular the source
file is no longer present afterwards. -/
def envVanish : Env :=
  ⟨fun _ => [], fun _ _ => (⟨fun p => if p = "a.mp4" then some ⟨5, 0⟩ else none⟩, 0)⟩

/-- Fixture: a filesystem holding only the source `a.mkv`. -/
def fsOnlySrc : FS := ⟨fun p => if p = "a.mkv" then some ⟨10, 1⟩ else none⟩

/-- Fixture: trivial path environment (identity normalization, nothing is
a directory). -/
def penvT : PathEnv := ⟨id, fun _ => false, "/"⟩

/-- Fixture: the record `worker_step` writes in the `envVanish` scenario —
success, but the stored signature is absent because the source vanished
during conversion. -/
def recPost : Rec := ⟨"a.mp4", true, none, "t1"⟩

/-- Looking up a key just written by `dbInsert` yields the new record. -/
theorem dbInsert_lookup (db : DB) (k : String) (v : Rec) :
    List.lookup k (dbInsert db k v) = some v := by
  induction db with
  | nil => simp [dbInsert, List.lookup]
  | cons hd tl ih =>
    obtain ⟨k', v'⟩ := hd
    by_cases h : k' = k
    · subst h
      simp [dbInsert, List.lookup]
    · have hb : (k == k') = false := by simpa using Ne.symm h
      simp only [dbInsert, if_neg h, List.lookup, hb]
      exact ih

/-- A record reached through `List.lookup` is the only record for its key
when the store has no duplicate keys. -/
theorem lookup_nodup_mem_eq (db : DB) (src : String) (v r : Rec)
    (hnd : (db.map Prod.fst).Nodup) (hlk : List.lookup src db = some v)
    (hmem : (src, r) ∈ db) : r = v := by
  induction db with
  | nil => cases hmem
  | cons hd tl ih =>
    obtain ⟨k, w⟩ := hd
    simp only [List.map_cons, List.nodup_cons] at hnd
    rcases List.mem_cons.mp hmem with heq | htl
    · obtain ⟨rfl, rfl⟩ := Prod.mk.injEq .. ▸ heq
      simp only [List.lookup, beq_self_eq_true, if_pos] at hlk
      · exact Option.some.inj hlk
    · by_cases hk : src = k
      · subst hk
        exact absurd (List.mem_map_of_mem Prod.fst htl) hnd.1
      · have hb : (src == k) = false := by simpa using hk
        simp only [List.lookup, hb] at hlk
        exact ih hnd.2 hlk htl

/-- Inversion of the cleanup decision chain: reaching the deletion branch
needs every one of the six checks and a false dry-run flag. -/
theorem cleanup_action_doDelete_gate (penv : PathEnv) (fs : FS) (policy : CPolicy)
    (scope_paths : List String) (dry_run : Bool) (src : String) (r : Rec)
    (h : cleanup_action penv fs policy scope_paths dry_run src r = CAction.doDelete) :
    delete_gate penv fs policy scope_paths dry_run src r := by
  unfold cleanup_action at h
  simp only [] at h
  split at h
  · cases h
  split at h
  · cases h
  split at h
  · cases h
  split at h
  · cases h
  split at h
  · cases h
  rename_i h1 h2 h3 h4 h5
  split at h
  · cases h
  rename_i current hsig
  split at h
  · cases h
  rename_i saved hsaved
  split at h
  · cases h
  rename_i h6
  split at h
  · cases h
  rename_i h7
  refine ⟨by simpa using h1, ?_, by simpa using h3, by simpa using h4, by simpa using h5,
    ⟨current, hsig, ?_⟩, by simpa using h7⟩
  · intro hne
    rcases Bool.eq_false_or_eq_true (is_within penv src scope_paths) with hw | hw
    · exact hw
    · exfalso
      apply h2
      have hemp : scope_paths.isEmpty = false := by
        cases scope_paths with
        | nil => exact absurd rfl hne
        | cons a l => rfl
      simp [hemp, hw]
  · rw [hsaved]
    have : saved = current := by simpa using h6
    rw [this]

/-- Removing a file preserves non-existence facts in the other direction:
anything present after `fsRemove` was present before. -/
theorem pathExists_fsRemove (fs : FS) (p q : String)
    (h : pathExists (fsRemove fs p) q = true) : pathExists fs q = true := by
  by_cases hqp : q = p
  · subst hqp
    simp [pathExists, fsRemove] at h
  · simpa [pathExists, fsRemove, hqp] using h

/-- A signature readable after `fsRemove` was readable before. -/
theorem file_sig_fsRemove (fs : FS) (p q : String) (s : Sig)
    (h : file_sig (fsRemove fs p) q = some s) : file_sig fs q = some s := by
  by_cases hqp : q = p
  · subst hqp
    simp [file_sig, fsRemove] at h
  · simpa [file_sig, fsRemove, hqp] using h

/-- The deletion gate only loses strength as files are removed: a gate that
holds after a removal held before it. -/
theorem delete_gate_fsRemove (penv : PathEnv) (fs : FS) (p : String) (policy : CPolicy)
    (scope_paths : List String) (dry_run : Bool) (src : String) (r : Rec)
    (h : delete_gate penv (fsRemove fs p) policy scope_paths dry_run src r) :
    delete_gate penv fs policy scope_paths dry_run src r := by
  obtain ⟨h1, h2, h3, h4, h5, ⟨s, hs1, hs2⟩, h7⟩ := h
  exact ⟨h1, h2, h3, pathExists_fsRemove fs p _ h4, pathExists_fsRemove fs p _ h5,
    ⟨s, file_sig_fsRemove fs p _ s hs1, hs2⟩, h7⟩

/-- Soundness of the cleanup loop: every source handed to `delete_file`
has a record in the store whose deletion gate holds against the initial
filesystem of the pass. -/
theorem cleanup_loop_deleted_gate (penv : PathEnv) (policy : CPolicy)
    (scope_paths : List String) (dry_run : Bool) (db : DB) :
    ∀ (fs : FS) (src : String),
      src ∈ deletedOf (cleanup_loop penv policy scope_paths dry_run fs db) →
      ∃ r, (src, r) ∈ db ∧ delete_gate penv fs policy scope_paths dry_run src r := by
  induction db with
  | nil =>
    intro fs src h
    simp [cleanup_loop, deletedOf] at h
  | cons hd tl ih =>
    intro fs src h
    obtain ⟨k, r⟩ := hd
    by_cases ha : cleanup_action penv fs policy scope_paths dry_run k r = CAction.doDelete
    · simp only [cleanup_loop, deletedOf, List.filterMap_cons, ha, if_pos] at h
      rcases List.mem_cons.mp h with rfl | htl
      · exact ⟨r, List.mem_cons_self _ _, cleanup_action_doDelete_gate _ _ _ _ _ _ _ ha⟩
      · obtain ⟨r', hmem, hgate⟩ := ih (fsRemove fs k) src htl
        exact ⟨r', List.mem_cons_of_mem _ hmem, delete_gate_fsRemove _ _ _ _ _ _ _ _ hgate⟩
    · simp only [cleanup_loop, deletedOf, List.filterMap_cons, if_neg ha] at h
      obtain ⟨r', hmem, hgate⟩ := ih fs src h
      exact ⟨r', List.mem_cons_of_mem _ hmem, hgate⟩

/-- With dry-run set, the decision chain can never reach the deletion
branch. -/
theorem cleanup_action_dry_ne_doDelete (penv : PathEnv) (fs : FS) (policy : CPolicy)
    (scope_paths : List String) (src : String) (r : Rec) :
    cleanup_action penv fs policy scope_paths true src r ≠ CAction.doDelete := by
  intro h
  have := (cleanup_action_doDelete_gate penv fs policy scope_paths true src r h).2.2.2.2.2.2
  cases this

/-- A dry-run cleanup loop performs no deletions at all. -/
theorem cleanup_loop_dry_no_delete (penv : PathEnv) (policy : CPolicy)
    (scope_paths : List String) (db : DB) :
    ∀ fs : FS, deletedOf (cleanup_loop penv policy scope_paths true fs db) = [] := by
  induction db with
  | nil =>
    intro fs
    simp [cleanup_loop, deletedOf]
  | cons hd tl ih =>
    intro fs
    obtain ⟨k, r⟩ := hd
    simp only [cleanup_loop, deletedOf, List.filterMap_cons,
      if_neg (cleanup_action_dry_ne_doDelete penv fs policy scope_paths k r)]
    simpa [deletedOf] using ih fs

/-- A covered extension implies the policy value is Python-truthy. -/
theorem DelPolicy.truthy_of_covers (p : DelPolicy) (ext : String)
    (h : p.covers ext = true) : p.truthy = true := by
  cases p with
  | nonePolicy => cases h
  | all => rfl
  | exts s =>
    simp only [DelPolicy.covers] at h
    simp only [DelPolicy.truthy, Bool.not_eq_true']
    cases s with
    | nil => cases h
    | cons a l => rfl

/-- Sanity of the path model: `dest_path` swaps the extension for `.mp4`
and `extOf` lowercases, matching `os.path.splitext` plus `.lower()`. -/
theorem dest_path_extOf_sanity :
    dest_path "a.mkv" = "a.mp4" ∧ extOf "/x/B.MKV" = ".mkv" ∧
    dest_path "/v/movie.part1.webm" = "/v/movie.part1.mp4" ∧
    splitext ".bashrc" = (".bashrc", "") := by decide

/-- C8: the needs-audio-transcode predicate is true iff the probed audio
stream list is non-empty and some stream's codec name, lowercased, lies
outside the fixed set {aac, mp3}; on an empty list it is false. -/
theorem needs_audio_transcode_iff (streams : List AStream) :
    (should_transcode_audio_core streams = true ↔
      streams ≠ [] ∧ ∃ a ∈ streams, strLower (a.codec_name.getD "") ∉ AUDIO_OK_FOR_MP4) ∧
    should_transcode_audio_core [] = false := by
  constructor
  · constructor
    · intro h
      unfold should_transcode_audio_core at h
      split at h
      · cases h
      · rename_i hne
        refine ⟨?_, ?_⟩
        · intro hnil
          rw [hnil] at hne
          exact hne rfl
        · obtain ⟨a, ha, hc⟩ := List.any_eq_true.mp h
          refine ⟨a, ha, ?_⟩
          simpa using hc
    · rintro ⟨hne, a, ha, hc⟩
      unfold should_transcode_audio_core
      rw [if_neg]
      · exact List.any_eq_true.mpr ⟨a, ha, by simpa using hc⟩
      · cases streams with
        | nil => exact absurd rfl hne
        | cons b l => simp
  · rfl

/-- C9: the transcode command with `lossless=true` is independent of the
configured CRF and carries the x264 lossless quality value `-crf 0`; with
`lossless=false` it carries exactly the configured preset and CRF. -/
theorem transcode_crf_selection (bin src dst crf crf2 preset : String) (tune : Option String) :
    build_ffmpeg_cmd_transcode bin src dst crf preset tune true =
      build_ffmpeg_cmd_transcode bin src dst crf2 preset tune true ∧
    List.IsInfix ["-crf", "0"] (build_ffmpeg_cmd_transcode bin src dst crf preset tune true) ∧
    List.IsInfix ["-preset", preset, "-crf", crf]
      (build_ffmpeg_cmd_transcode bin src dst crf preset tune false) := by
  refine ⟨rfl, ?_, ?_⟩
  · refine ⟨[bin, "-loglevel", "warning", "-hide_banner", "-nostats", "-y",
      "-fflags", "+genpts+discardcorrupt", "-err_detect", "ignore_err",
      "-i", src, "-map", "0:v:0?", "-map", "0:a:0?", "-c:v", "libx264",
      "-preset", pyOrStr preset "veryslow"],
      ["-pix_fmt", "yuv420p"]
      ++ (if (tune.getD "") == "" then [] else ["-tune", tune.getD ""])
      ++ ["-c:a", "aac", "-b:a", AUDIO_BITRATE]
      ++ ["-avoid_negative_ts", "make_zero", "-movflags", "+faststart", dst], ?_⟩
    simp [build_ffmpeg_cmd_transcode]
  · refine ⟨[bin, "-loglevel", "warning", "-hide_banner", "-nostats", "-y",
      "-fflags", "+genpts+discardcorrupt", "-err_detect", "ignore_err",
      "-i", src, "-map", "0:v:0?", "-map", "0:a:0?", "-c:v", "libx264"],
      ["-pix_fmt", "yuv420p"]
      ++ (if (tune.getD "") == "" then [] else ["-tune", tune.getD ""])
      ++ ["-c:a", "aac", "-b:a", AUDIO_BITRATE]
      ++ ["-avoid_negative_ts", "make_zero", "-movflags", "+faststart", dst], ?_⟩
    simp [build_ffmpeg_cmd_transcode]

/-- C7: `save_json` writes the whole serialized snapshot to the sibling
temporary path and then atomically renames it over the canonical path, so
after any prefix of its operations the canonical path holds either the old
content or the complete new snapshot, and after all of them the new one. -/
theorem save_json_atomic (ser : DB → String) (path : String) (data : DB)
    (st : Store) (k : Nat) :
    (applyOps st ((save_json_ops ser path data).take k) path = st path ∨
     applyOps st ((save_json_ops ser path data).take k) path = some (ser data)) ∧
    applyOps st (save_json_ops ser path data) path = some (ser data) := by
  have hne : path ≠ path ++ ".tmp" := by
    intro h
    have hl := congrArg String.length h
    rw [String.length_append] at hl
    have h4 : (".tmp" : String).length = 4 := rfl
    omega
  have hfull : applyOps st (save_json_ops ser path data) path = some (ser data) := by
    show applyOp (applyOp st (.write (path ++ ".tmp") (ser data)))
      (.rename (path ++ ".tmp") path) path = some (ser data)
    simp [applyOp]
  refine ⟨?_, hfull⟩
  match k with
  | 0 => exact Or.inl rfl
  | 1 =>
    left
    show applyOp st (.write (path ++ ".tmp") (ser data)) path = st path
    simp [applyOp, hne]
  | (n + 2) =>
    right
    have htake : (save_json_ops ser path data).take (n + 2) = save_json_ops ser path data := by
      simp [save_json_ops]
    rw [htake]
    exact hfull

/-- C1: a task whose source has a success record with matching signature
and an existing destination is classified skipped and triggers no external
process when force is off. -/
theorem skip_zero_invocations (bin : String) (env : Env) (opts : Opts) (now : String)
    (fs : FS) (db : DB) (src : String) (r : Rec) (s : Sig)
    (hrec : List.lookup src db = some r) (hsucc : r.success = true)
    (hdst : pathExists fs (dest_path src) = true)
    (hsig : file_sig fs src = some s) (hstored : r.sig = some s)
    (hforce : opts.force = false) :
    (worker_step bin env opts now fs db src).status = Status.skipped ∧
    (worker_step bin env opts now fs db src).invs = [] := by
  have hdone : already_done fs db src (dest_path src) = true := by
    unfold already_done
    rw [hrec, hsig]
    simp [hdst, hsucc, hstored]
  constructor <;> simp [worker_step, hforce, hdone]

/-- C1 witness: a concrete store, filesystem and options in which the
worker skips the task without invoking any process. -/
theorem skip_zero_invocations_wit :
    (worker_step "ffmpeg" envFail optsNoDel "t1" fsA dbA "a.mkv").status = Status.skipped ∧
    (worker_step "ffmpeg" envFail optsNoDel "t1" fsA dbA "a.mkv").invs = [] :=
  skip_zero_invocations "ffmpeg" envFail optsNoDel "t1" fsA dbA "a.mkv" recA ⟨10, 1⟩
    (by decide) (by decide) (by decide) (by decide) (by decide) (by decide)

/-- C2: every source the cleanup pass actually deletes has a record in the
store satisfying all six checks — policy covers the extension, the scope
admits the path, success is recorded, destination exists, source exists
with a current signature equal to the stored one — and dry-run is off. -/
theorem cleanup_deletion_gate (penv : PathEnv) (fs : FS) (db : DB) (policy : CPolicy)
    (scope_paths : List String) (dry_run : Bool) (src : String)
    (h : src ∈ deletedOf (cleanup_from_progress penv fs db policy scope_paths dry_run)) :
    ∃ r, (src, r) ∈ db ∧ delete_gate penv fs policy scope_paths dry_run src r :=
  cleanup_loop_deleted_gate penv policy scope_paths dry_run db fs src h

/-- C2 witness: a record passing all checks is indeed deleted, and the
theorem yields its gate. -/
theorem cleanup_deletion_gate_wit :
    ∃ r, ("a.mkv", r) ∈ dbA ∧ delete_gate penvT fsA CPolicy.all [] false "a.mkv" r :=
  cleanup_deletion_gate penvT fsA dbA CPolicy.all [] false "a.mkv" (by decide)

/-- C3: with dry-run set, the deletion primitive is never invoked — a
dry-run cleanup pass deletes nothing, and the post-conversion delete-after
step (directly, or through a worker-loop task) deletes nothing. -/
theorem dry_run_never_deletes (penv : PathEnv) (fs : FS) (db : DB) (policy : CPolicy)
    (scope_paths : List String) (opts : Opts) (bin now : String) (env : Env)
    (fs2 fs3 : FS) (db2 : DB) (src : String) (hdry : opts.dry_run = true) :
    deletedOf (cleanup_from_progress penv fs db policy scope_paths true) = [] ∧
    (maybe_delete_source opts fs2 src).deletions = [] ∧
    (worker_step bin env opts now fs3 db2 src).deletions = [] := by
  have hmd : ∀ (f : FS) (s : String), (maybe_delete_source opts f s).deletions = [] := by
    intro f s
    unfold maybe_delete_source
    simp only [hdry]
    split
    · rfl
    · rfl
  refine ⟨cleanup_loop_dry_no_delete penv policy scope_paths db fs, hmd fs2 src, ?_⟩
  rcases Bool.eq_false_or_eq_true (!opts.force && already_done fs3 db2 src (dest_path src))
    with hc | hc
  · simp [worker_step, hc]
  · rcases Bool.eq_false_or_eq_true (worker_process bin env opts fs3 src).ok with hok | hok
    · rcases Bool.eq_false_or_eq_true opts.delete_after_policy.truthy with htr | htr
      · simp [worker_step, hc, hok, htr, hmd]
      · simp [worker_step, hc, hok, htr]
    · simp [worker_step, hc, hok]

/-- C3 witness: concrete dry-run options on a store with an eligible
record — nothing is deleted anywhere. -/
theorem dry_run_never_deletes_wit :
    deletedOf (cleanup_from_progress penvT fsA dbA CPolicy.all [] true) = [] ∧
    (maybe_delete_source ⟨"18", "slow", "", false, false, true, false,
      DelPolicy.exts [".mkv"]⟩ fsA "a.mkv").deletions = [] ∧
    (worker_step "ffmpeg" envVanish ⟨"18", "slow", "", false, false, true, false,
      DelPolicy.exts [".mkv"]⟩ "t1" fsOnlySrc [] "a.mkv").deletions = [] :=
  dry_run_never_deletes penvT fsA dbA CPolicy.all []
    ⟨"18", "slow", "", false, false, true, false, DelPolicy.exts [".mkv"]⟩
    "ffmpeg" "t1" envVanish fsA fsOnlySrc [] "a.mkv" (by decide)

/-- C10: a record whose stored signature is absent never certifies an
already-done skip, is never deleted by a cleanup pass, and whenever the
cleanup loop reaches its signature check (policy, scope, success,
destination and source checks all passed) it is classified as changed. -/
theorem absent_sig_never_deleted (penv : PathEnv) (fs : FS) (policy : CPolicy)
    (scope_paths : List String) (dry_run : Bool) (db : DB) (src dst : String) (r : Rec)
    (hnd : (db.map Prod.fst).Nodup) (hlk : List.lookup src db = some r)
    (hsig : r.sig = none) :
    already_done fs db src dst = false ∧
    src ∉ deletedOf (cleanup_from_progress penv fs db policy scope_paths dry_run) ∧
    (policy.skipsExt (extOf src) = false →
      (!scope_paths.isEmpty && !is_within penv src scope_paths) = false →
      r.success = true →
      pathExists fs (recDst r src) = true →
      pathExists fs src = true →
      cleanup_action penv fs policy scope_paths dry_run src r = CAction.changed) := by
  refine ⟨?_, ?_, ?_⟩
  · unfold already_done
    rw [hlk]
    rcases Bool.eq_false_or_eq_true (pathExists fs dst) with hp | hp
    · cases hcur : file_sig fs src with
      | none => simp [hp, hcur]
      | some sig => simp [hp, hcur, hsig]
    · simp [hp]
  · intro hmem
    obtain ⟨r', hmem', hgate⟩ :=
      cleanup_loop_deleted_gate penv policy scope_paths dry_run db fs src hmem
    have heq : r' = r := lookup_nodup_mem_eq db src r r' hnd hlk hmem'
    subst heq
    obtain ⟨s, _, hss⟩ := hgate.2.2.2.2.2.1
    rw [hsig] at hss
    cases hss
  · intro h1 h2 h3 h4 h5
    obtain ⟨s, hs⟩ := Option.isSome_iff_exists.mp (by simpa [pathExists] using h5)
    unfold cleanup_action
    simp [h1, h2, h3, h4, h5, file_sig, hs, hsig]

/-- C10 witness: a concrete success record with absent signature, both
files present — `already_done` is false, cleanup deletes nothing and
classifies the record as changed. -/
theorem absent_sig_never_deleted_wit :
    already_done fsA dbN "a.mkv" "a.mp4" = false ∧
    "a.mkv" ∉ deletedOf (cleanup_from_progress penvT fsA dbN CPolicy.all [] false) ∧
    cleanup_action penvT fsA CPolicy.all [] false "a.mkv" recN = CAction.changed := by
  have h := absent_sig_never_deleted penvT fsA CPolicy.all [] false dbN "a.mkv" "a.mp4" recN
    (by decide) (by decide) (by decide)
  exact ⟨h.1, h.2.1, h.2.2 (by decide) (by decide) (by decide) (by decide) (by decide)⟩

/-- C4 counterexample: the immediate post-conversion deletion is not gated
by the Cleanup Pass re-validation.  The source vanishes during the
(successful) conversion, so the recorded signature is absent and the
cleanup decision chain would refuse to delete — yet the worker invokes the
deletion primitive on the source. -/
theorem delete_after_not_revalidated_cex :
    (worker_step "ffmpeg" envVanish optsDelMkv "t1" fsOnlySrc [] "a.mkv").status =
      Status.converted ∧
    (worker_step "ffmpeg" envVanish optsDelMkv "t1" fsOnlySrc [] "a.mkv").deletions =
      ["a.mkv"] ∧
    List.lookup "a.mkv" (worker_step "ffmpeg" envVanish optsDelMkv "t1" fsOnlySrc [] "a.mkv").db =
      some recPost ∧
    cleanup_action penvT (worker_step "ffmpeg" envVanish optsDelMkv "t1" fsOnlySrc [] "a.mkv").fs
      CPolicy.all [] false "a.mkv" recPost = CAction.missingSrc := by
  decide

/-- C4 amended: on a converted task the worker invokes the immediate
delete step, but its only gates are the delete-after policy's extension
coverage and the dry-run flag — no re-validation of record, destination or
signature occurs. -/
theorem delete_after_extension_gate (bin : String) (env : Env) (opts : Opts) (now : String)
    (fs : FS) (db : DB) (src : String) :
    (worker_step bin env opts now fs db src).deletions =
      (if (worker_step bin env opts now fs db src).status = Status.converted ∧
          opts.delete_after_policy.covers (extOf src) = true ∧
          opts.dry_run = false
       then [src] else []) := by
  rcases Bool.eq_false_or_eq_true (!opts.force && already_done fs db src (dest_path src))
    with hc | hc
  · simp [worker_step, hc]
  · rcases Bool.eq_false_or_eq_true (worker_process bin env opts fs src).ok with hok | hok
    · rcases Bool.eq_false_or_eq_true opts.delete_after_policy.truthy with htr | htr
      · rcases Bool.eq_false_or_eq_true (opts.delete_after_policy.covers (extOf src))
          with hcov | hcov <;>
        rcases Bool.eq_false_or_eq_true opts.dry_run with hd | hd <;>
        simp [worker_step, maybe_delete_source, hc, hok, htr, hcov, hd]
      · have hcov : opts.delete_after_policy.covers (extOf src) = false := by
          rcases Bool.eq_false_or_eq_true (opts.delete_after_policy.covers (extOf src))
            with hcv | hcv
          · exact absurd (DelPolicy.truthy_of_covers _ _ hcv) (by simp [htr])
          · exact hcv
        simp [worker_step, hc, hok, htr, hcov]
    · simp [worker_step, hc, hok]

/-- C5 counterexample: a skipped task is neither re-recorded nor
persisted — the worker performs zero `mark_progress` and zero `save_json`
calls for it and leaves the store untouched. -/
theorem skipped_not_persisted_cex :
    (worker_step "ffmpeg" envFail optsNoDel "t1" fsA dbA "a.mkv").status = Status.skipped ∧
    (worker_step "ffmpeg" envFail optsNoDel "t1" fsA dbA "a.mkv").saves = 0 ∧
    (worker_step "ffmpeg" envFail optsNoDel "t1" fsA dbA "a.mkv").marks = [] ∧
    (worker_step "ffmpeg" envFail optsNoDel "t1" fsA dbA "a.mkv").db = dbA := by
  decide

/-- C5 amended: a task that actually runs a conversion (converted or
failed) has its outcome recorded for its source path — failed as
success=false — and the whole store persisted once, before the next task;
a skipped task triggers no record and no persist, leaving the store
unchanged. -/
theorem outcome_recording (bin : String) (env : Env) (opts : Opts) (now : String)
    (fs : FS) (db : DB) (src : String) :
    ((worker_step bin env opts now fs db src).status = Status.skipped →
      (worker_step bin env opts now fs db src).saves = 0 ∧
      (worker_step bin env opts now fs db src).marks = [] ∧
      (worker_step bin env opts now fs db src).db = db) ∧
    ((worker_step bin env opts now fs db src).status ≠ Status.skipped →
      (worker_step bin env opts now fs db src).saves = 1 ∧
      ∃ r, List.lookup src (worker_step bin env opts now fs db src).db = some r ∧
        r.dst = dest_path src ∧
        r.success = decide
          ((worker_step bin env opts now fs db src).status = Status.converted) ∧
        r.updated_at = now) := by
  rcases Bool.eq_false_or_eq_true (!opts.force && already_done fs db src (dest_path src))
    with hc | hc
  · constructor
    · intro _
      refine ⟨?_, ?_, ?_⟩ <;> simp [worker_step, hc]
    · intro hne
      exact absurd (by simp [worker_step, hc]) hne
  · have hlkm : ∀ fsx okv,
        List.lookup src (mark_progress fsx db src (dest_path src) okv now) =
          some ⟨dest_path src, okv,
            if pathExists fsx src then file_sig fsx src else none, now⟩ := by
      intro fsx okv
      unfold mark_progress
      exact dbInsert_lookup db src _
    rcases Bool.eq_false_or_eq_true (worker_process bin env opts fs src).ok with hok | hok
    · rcases Bool.eq_false_or_eq_true opts.delete_after_policy.truthy with htr | htr <;>
      · have hdb : (worker_step bin env opts now fs db src).db =
            mark_progress (worker_process bin env opts fs src).fs db src (dest_path src)
              (worker_process bin env opts fs src).ok now := by
          simp [worker_step, hc, hok, htr]
        have hst : (worker_step bin env opts now fs db src).status = Status.converted := by
          simp [worker_step, hc, hok, htr]
        constructor
        · intro hsk
          rw [hst] at hsk
          cases hsk
        · intro _
          refine ⟨by simp [worker_step, hc, hok, htr],
            ⟨dest_path src, (worker_process bin env opts fs src).ok,
              (if pathExists (worker_process bin env opts fs src).fs src then
                file_sig (worker_process bin env opts fs src).fs src else none), now⟩,
            ?_, rfl, ?_, rfl⟩
          · rw [hdb]
            exact hlkm _ _
          · simp [hok, hst]
    · have hdb : (worker_step bin env opts now fs db src).db =
          mark_progress (worker_process bin env opts fs src).fs db src (dest_path src)
            (worker_process bin env opts fs src).ok now := by
        simp [worker_step, hc, hok]
      have hst : (worker_step bin env opts now fs db src).status = Status.failed := by
        simp [worker_step, hc, hok]
      constructor
      · intro hsk
        rw [hst] at hsk
        cases hsk
      · intro _
        refine ⟨by simp [worker_step, hc, hok],
          ⟨dest_path src, (worker_process bin env opts fs src).ok,
            (if pathExists (worker_process bin env opts fs src).fs src then
              file_sig (worker_process bin env opts fs src).fs src else none), now⟩,
          ?_, rfl, ?_, rfl⟩
        · rw [hdb]
          exact hlkm _ _
        · simp [hok, hst]

/-- C5 witness: on a concrete failed conversion the store receives a
success=false record for the source and exactly one persist occurs. -/
theorem outcome_recording_wit :
    (worker_step "ffmpeg" envFail optsNoDel "t1" fsOnlySrc [] "a.mkv").saves = 1 ∧
    ∃ r, List.lookup "a.mkv" (worker_step "ffmpeg" envFail optsNoDel "t1" fsOnlySrc [] "a.mkv").db =
        some r ∧
      r.dst = dest_path "a.mkv" ∧
      r.success = decide
        ((worker_step "ffmpeg" envFail optsNoDel "t1" fsOnlySrc [] "a.mkv").status =
          Status.converted) ∧
      r.updated_at = "t1" :=
  (outcome_recording "ffmpeg" envFail optsNoDel "t1" fsOnlySrc [] "a.mkv").2 (by decide)

/-- C6: on a `.mkv` task that is not skipped, the primary remux command
(audio decided by the probe) runs first; success of the exit-code and
destination check yields converted at once, otherwise exactly one fallback
remux (audio transcode forced, subtitles off) runs, judged by the same
check, with failure of both yielding failed and no third attempt. -/
theorem mkv_two_stage_fallback (bin : String) (env : Env) (opts : Opts) (now : String)
    (fs : FS) (db : DB) (src : String)
    (hext : extOf src = ".mkv")
    (hns : (!opts.force && already_done fs db src (dest_path src)) = false) :
    (convSuccess (env.exec (mkv_primary_cmd bin env src) fs).1 (dest_path src)
        (env.exec (mkv_primary_cmd bin env src) fs).2 = true →
      (worker_step bin env opts now fs db src).status = Status.converted ∧
      (worker_step bin env opts now fs db src).invs =
        [Invocation.probe src, Invocation.ffmpeg (mkv_primary_cmd bin env src)]) ∧
    (convSuccess (env.exec (mkv_primary_cmd bin env src) fs).1 (dest_path src)
        (env.exec (mkv_primary_cmd bin env src) fs).2 = false →
      (worker_step bin env opts now fs db src).invs =
        [Invocation.probe src, Invocation.ffmpeg (mkv_primary_cmd bin env src),
         Invocation.ffmpeg (mkv_fallback_cmd bin src)] ∧
      ((worker_step bin env opts now fs db src).status = Status.converted ↔
        convSuccess
          (env.exec (mkv_fallback_cmd bin src) (env.exec (mkv_primary_cmd bin env src) fs).1).1
          (dest_path src)
          (env.exec (mkv_fallback_cmd bin src) (env.exec (mkv_primary_cmd bin env src) fs).1).2 =
          true) ∧
      ((worker_step bin env opts now fs db src).status = Status.failed ↔
        convSuccess
          (env.exec (mkv_fallback_cmd bin src) (env.exec (mkv_primary_cmd bin env src) fs).1).1
          (dest_path src)
          (env.exec (mkv_fallback_cmd bin src) (env.exec (mkv_primary_cmd bin env src) fs).1).2 =
          false)) := by
  have hwp : worker_process bin env opts fs src = process_mkv bin env fs src := by
    unfold worker_process
    rw [if_pos (by simp [hext])]
  constructor
  · intro h1
    have hpr : process_mkv bin env fs src =
        ⟨true, (env.exec (mkv_primary_cmd bin env src) fs).1,
         [Invocation.probe src, Invocation.ffmpeg (mkv_primary_cmd bin env src)]⟩ := by
      unfold process_mkv mkv_primary_cmd
      unfold mkv_primary_cmd at h1
      simp only []
      rw [if_pos h1]
    rcases Bool.eq_false_or_eq_true opts.delete_after_policy.truthy with htr | htr <;>
      constructor <;> simp [worker_step, hns, hwp, hpr, htr]
  · intro h1
    have hpr : process_mkv bin env fs src =
        ⟨convSuccess
            (env.exec (mkv_fallback_cmd bin src) (env.exec (mkv_primary_cmd bin env src) fs).1).1
            (dest_path src)
            (env.exec (mkv_fallback_cmd bin src) (env.exec (mkv_primary_cmd bin env src) fs).1).2,
          (env.exec (mkv_fallback_cmd bin src) (env.exec (mkv_primary_cmd bin env src) fs).1).1,
          [Invocation.probe src, Invocation.ffmpeg (mkv_primary_cmd bin env src),
           Invocation.ffmpeg (mkv_fallback_cmd bin src)]⟩ := by
      unfold process_mkv mkv_primary_cmd mkv_fallback_cmd
      unfold mkv_primary_cmd at h1
      simp only []
      rw [if_neg (by simp [h1])]
    rcases Bool.eq_false_or_eq_true
      (convSuccess
        (env.exec (mkv_fallback_cmd bin src) (env.exec (mkv_primary_cmd bin env src) fs).1).1
        (dest_path src)
        (env.exec (mkv_fallback_cmd bin src) (env.exec (mkv_primary_cmd bin env src) fs).1).2)
      with hb | hb <;>
    rcases Bool.eq_false_or_eq_true opts.delete_after_policy.truthy with htr | htr <;>
      refine ⟨by simp [worker_step, hns, hwp, hpr, htr, hb], ?_, ?_⟩ <;>
      simp [worker_step, hns, hwp, hpr, htr, hb]

/-- C6 witness: a concrete environment in which both remux attempts fail —
the worker performs exactly the probe, the primary and the single fallback
invocation and classifies the task failed. -/
theorem mkv_two_stage_fallback_wit :
    (worker_step "ffmpeg" envFail optsNoDel "t1" fsOnlySrc [] "a.mkv").invs =
      [Invocation.probe "a.mkv",
       Invocation.ffmpeg (mkv_primary_cmd "ffmpeg" envFail "a.mkv"),
       Invocation.ffmpeg (mkv_fallback_cmd "ffmpeg" "a.mkv")] ∧
    (worker_step "ffmpeg" envFail optsNoDel "t1" fsOnlySrc [] "a.mkv").status = Status.failed := by
  have h := (mkv_two_stage_fallback "ffmpeg" envFail optsNoDel "t1" fsOnlySrc [] "a.mkv"
    (by decide) (by decide)).2 (by decide)
  exact ⟨h.1, h.2.2.mpr (by decide)⟩
